import Mathlib

/-!
Verification of the deck/card core of `cardgame.py`.

The Python source defines two enums `Suit` and `Rank` (each member carrying a
display string as its `.value`), a `Card` class pairing a suit and a rank with
`__repr__` returning `rank.value + suit.value`, and a `Deck` class holding a
list `cards`:

* `_initialize_deck` appends `Card(suit, rank)` for every suit (in enum order)
  and every rank, then calls `random.shuffle(self.cards)`;
* `__init__` sets `cards = []` and calls `_initialize_deck`;
* `draw_card` pops the last element of `cards` if non-empty, else returns
  `None`;
* `cards_remaining` returns `len(cards)`;
* `reset` sets `cards = []` and calls `_initialize_deck`.

The only effectful ingredient is `random.shuffle`, which rearranges the list in
place into some permutation of itself.  We embed it as an explicit parameter
`sh : List Card → List Card` together with the predicate `IsShuffle sh` saying
that `sh` returns a permutation of its input — exactly the guarantee
`random.shuffle` provides.  Everything else is translated directly.
-/

/-- The `Suit` enum, in Python definition order. -/
inductive Suit where
  | HEARTS
  | DIAMONDS
  | CLUBS
  | SPADES
deriving DecidableEq, Fintype, Repr

/-- `Suit.value`: the display glyph carried by each enum member. -/
def Suit.value : Suit → String
  | .HEARTS => "♥"
  | .DIAMONDS => "♦"
  | .CLUBS => "♣"
  | .SPADES => "♠"

/-- The `Rank` enum, in Python definition order. -/
inductive Rank where
  | ACE
  | TWO
  | THREE
  | FOUR
  | FIVE
  | SIX
  | SEVEN
  | EIGHT
  | NINE
  | TEN
  | JACK
  | QUEEN
  | KING
deriving DecidableEq, Fintype, Repr

/-- `Rank.value`: the display label carried by each enum member. -/
def Rank.value : Rank → String
  | .ACE => "A"
  | .TWO => "2"
  | .THREE => "3"
  | .FOUR => "4"
  | .FIVE => "5"
  | .SIX => "6"
  | .SEVEN => "7"
  | .EIGHT => "8"
  | .NINE => "9"
  | .TEN => "10"
  | .JACK => "J"
  | .QUEEN => "Q"
  | .KING => "K"

/-- `Card`: a suit together with a rank (fields `suit`, `rank`). -/
structure Card where
  suit : Suit
  rank : Rank
deriving DecidableEq, Fintype, Repr

/-- `Card.__repr__`: returns `f"{self.rank.value}{self.suit.value}"`. -/
def Card.reprStr (c : Card) : String := c.rank.value ++ c.suit.value

/-- Iteration order of `for suit in Suit`, Python enum definition order. -/
def Suit.members : List Suit := [.HEARTS, .DIAMONDS, .CLUBS, .SPADES]

/-- Iteration order of `for rank in Rank`, Python enum definition order. -/
def Rank.members : List Rank :=
  [.ACE, .TWO, .THREE, .FOUR, .FIVE, .SIX, .SEVEN, .EIGHT, .NINE, .TEN,
   .JACK, .QUEEN, .KING]

/-- `Deck`: holds the list `self.cards`; the top of the deck is the end. -/
structure Deck where
  cards : List Card
deriving DecidableEq, Repr

/-- The 52 cards appended by the two nested loops of `_initialize_deck`,
in loop order (before the shuffle). -/
def builtCards : List Card :=
  Suit.members.flatMap fun s => Rank.members.map fun r => ⟨s, r⟩

/-- `Deck._initialize_deck`: append the 52 cards to `self.cards`, then call
`random.shuffle(self.cards)` — the shuffle is the parameter `sh`. -/
def Deck.initializeDeck (sh : List Card → List Card) (d : Deck) : Deck :=
  ⟨sh (d.cards ++ builtCards)⟩

/-- `Deck.__init__`: `self.cards = []` followed by `self._initialize_deck()`. -/
def Deck.new (sh : List Card → List Card) : Deck :=
  Deck.initializeDeck sh ⟨[]⟩

/-- `Deck.draw_card`: pop and return the last element of `cards` if the list
is non-empty (truthy), else return `None`.  Returns the drawn card (if any)
together with the deck state after the call. -/
def Deck.draw_card (d : Deck) : Option Card × Deck :=
  match d.cards.getLast? with
  | some c => (some c, ⟨d.cards.dropLast⟩)
  | none => (none, d)

/-- `Deck.cards_remaining`: `len(self.cards)`. -/
def Deck.cards_remaining (d : Deck) : Nat := d.cards.length

/-- `Deck.reset`: `self.cards = []` followed by `self._initialize_deck()`. -/
def Deck.reset (sh : List Card → List Card) (_d : Deck) : Deck :=
  Deck.initializeDeck sh ⟨[]⟩

/-- What `random.shuffle` guarantees: the list is rearranged in place, i.e.
the result is a permutation of the input. -/
def IsShuffle (sh : List Card → List Card) : Prop :=
  ∀ l : List Card, (sh l).Perm l

/-- A deck state is freshly initialized when its card list is a permutation
of the 52 cards built by `_initialize_deck`. -/
def Deck.Fresh (d : Deck) : Prop := d.cards.Perm builtCards

/-- Iterating `draw_card` `n` times, discarding the drawn cards. -/
def Deck.drawN (d : Deck) : Nat → Deck
  | 0 => d
  | n + 1 => ((d.draw_card).2).drawN n

/-- Iterating `draw_card` `n` times, collecting the cards actually drawn in
draw order (first drawn first), together with the final deck state. -/
def Deck.drawList (d : Deck) : Nat → List Card × Deck
  | 0 => ([], d)
  | n + 1 =>
    match d.draw_card with
    | (some c, d₂) =>
      let p := d₂.drawList n
      (c :: p.1, p.2)
    | (none, d₂) => ([], d₂)

/-- Deck states reachable through the public interface: construction, draws
and resets (each with an arbitrary shuffle). -/
inductive Deck.Reachable : Deck → Prop
  | new (sh : List Card → List Card) : IsShuffle sh → Deck.Reachable (Deck.new sh)
  | draw (d : Deck) : Deck.Reachable d → Deck.Reachable (d.draw_card).2
  | reset (d : Deck) (sh : List Card → List Card) :
      Deck.Reachable d → IsShuffle sh → Deck.Reachable (d.reset sh)

/-! ### Basic facts about the built card list and fresh decks -/

theorem builtCards_length : builtCards.length = 52 := by decide

theorem builtCards_nodup : builtCards.Nodup := by decide

theorem mem_builtCards : ∀ c : Card, c ∈ builtCards := by decide

theorem Deck.fresh_new (sh : List Card → List Card) (hsh : IsShuffle sh) :
    (Deck.new sh).Fresh := by
  simpa [Deck.new, Deck.initializeDeck, Deck.Fresh] using hsh builtCards

theorem Deck.fresh_reset (sh : List Card → List Card) (d : Deck)
    (hsh : IsShuffle sh) : (d.reset sh).Fresh :=
  Deck.fresh_new sh hsh

theorem Deck.Fresh.length_eq {d : Deck} (hd : d.Fresh) : d.cards.length = 52 :=
  (List.Perm.length_eq hd).trans builtCards_length

theorem Deck.Fresh.nodup {d : Deck} (hd : d.Fresh) : d.cards.Nodup :=
  (List.Perm.nodup_iff hd).mpr builtCards_nodup

theorem Deck.Fresh.mem {d : Deck} (hd : d.Fresh) (c : Card) : c ∈ d.cards :=
  (List.Perm.mem_iff hd).mpr (mem_builtCards c)

/-! ### Facts about `draw_card` and its iterations -/

theorem Deck.draw_card_of_ne_nil (d : Deck) (h : d.cards ≠ []) :
    d.draw_card = (some (d.cards.getLast h), ⟨d.cards.dropLast⟩) := by
  simp [Deck.draw_card, List.getLast?_eq_getLast_of_ne_nil h]

theorem Deck.draw_card_of_nil (d : Deck) (h : d.cards = []) :
    d.draw_card = (none, d) := by
  simp [Deck.draw_card, h]

theorem Deck.draw_card_length (d : Deck) :
    (d.draw_card).2.cards.length = d.cards.length - 1 := by
  rcases eq_or_ne d.cards [] with h | h
  · rw [Deck.draw_card_of_nil d h]
    simp [h]
  · rw [Deck.draw_card_of_ne_nil d h]
    simp [List.length_dropLast]

theorem Deck.drawN_length (d : Deck) (n : Nat) :
    (d.drawN n).cards.length = d.cards.length - n := by
  induction n generalizing d with
  | zero => simp [Deck.drawN]
  | succ n ih =>
    rw [show d.drawN (n + 1) = ((d.draw_card).2).drawN n from rfl, ih,
      Deck.draw_card_length]
    omega

theorem Deck.drawList_append (d : Deck) (n : Nat) :
    (d.drawList n).2.cards ++ ((d.drawList n).1).reverse = d.cards := by
  induction n generalizing d with
  | zero => simp [Deck.drawList]
  | succ n ih =>
    rcases eq_or_ne d.cards [] with h | h
    · simp [Deck.drawList, Deck.draw_card_of_nil d h, h]
    · simp only [Deck.drawList, Deck.draw_card_of_ne_nil d h, List.reverse_cons]
      rw [← List.append_assoc, ih]
      exact List.dropLast_append_getLast h

theorem Deck.drawList_length (d : Deck) (n : Nat) :
    ((d.drawList n).1).length = min n d.cards.length := by
  induction n generalizing d with
  | zero => simp [Deck.drawList]
  | succ n ih =>
    rcases eq_or_ne d.cards [] with h | h
    · simp [Deck.drawList, Deck.draw_card_of_nil d h, h]
    · have hpos : 0 < d.cards.length := List.length_pos.mpr h
      simp only [Deck.drawList, Deck.draw_card_of_ne_nil d h]
      simp only [List.length_cons, ih, List.length_dropLast]
      omega

/-! ### Claim theorems -/

/-- A small concrete deck used as input in witness statements. -/
def sampleDeck : Deck := ⟨[⟨Suit.HEARTS, Rank.ACE⟩, ⟨Suit.SPADES, Rank.KING⟩]⟩

/-- C1: immediately after construction (`Deck.__init__`) or after `reset`, the
deck owns exactly one card for every (Suit, Rank) pair: 52 cards, no
duplicates, no omissions, and `cards_remaining` is 52. -/
theorem fresh_deck_is_full_52 (sh : List Card → List Card) (d₀ : Deck)
    (hsh : IsShuffle sh) :
    ((Deck.new sh).cards_remaining = 52 ∧ (Deck.new sh).cards.Nodup ∧
      ∀ c : Card, c ∈ (Deck.new sh).cards) ∧
    ((d₀.reset sh).cards_remaining = 52 ∧ (d₀.reset sh).cards.Nodup ∧
      ∀ c : Card, c ∈ (d₀.reset sh).cards) := by
  have h1 := Deck.fresh_new sh hsh
  have h2 := Deck.fresh_reset sh d₀ hsh
  exact ⟨⟨h1.length_eq, h1.nodup, h1.mem⟩, ⟨h2.length_eq, h2.nodup, h2.mem⟩⟩

/-- Witness for C1 at the identity shuffle and the empty starting deck. -/
theorem fresh_deck_is_full_52_witness :
    IsShuffle id ∧
    (((Deck.new id).cards_remaining = 52 ∧ (Deck.new id).cards.Nodup ∧
       ∀ c : Card, c ∈ (Deck.new id).cards) ∧
     (((Deck.mk []).reset id).cards_remaining = 52 ∧
       ((Deck.mk []).reset id).cards.Nodup ∧
       ∀ c : Card, c ∈ ((Deck.mk []).reset id).cards)) :=
  ⟨fun l => List.Perm.refl l,
   fresh_deck_is_full_52 id ⟨[]⟩ (fun l => List.Perm.refl l)⟩

/-- C2: on a non-empty deck, `draw_card` returns the card at the end of the
internal order (the top), the new state is the old list without that last
element (every other card unchanged, in order), the drawn card is no longer
owned (the deck being duplicate-free, as every reachable deck is), and the
count drops by exactly one. -/
theorem draw_card_pops_top (d : Deck) (h : d.cards ≠ []) (hnd : d.cards.Nodup) :
    (d.draw_card).1 = some (d.cards.getLast h) ∧
    (d.draw_card).2.cards ++ [d.cards.getLast h] = d.cards ∧
    d.cards.getLast h ∉ (d.draw_card).2.cards ∧
    (d.draw_card).2.cards_remaining + 1 = d.cards_remaining := by
  have key : d.cards.dropLast ++ [d.cards.getLast h] = d.cards :=
    List.dropLast_append_getLast h
  have hnd2 : (d.cards.dropLast ++ [d.cards.getLast h]).Nodup := by
    rw [key]; exact hnd
  have hpos : 0 < d.cards.length := List.length_pos.mpr h
  rw [Deck.draw_card_of_ne_nil d h]
  refine ⟨rfl, key, ?_, ?_⟩
  · intro hmem
    exact (List.nodup_append.mp hnd2).2.2 hmem (List.mem_singleton_self _)
  · show d.cards.dropLast.length + 1 = d.cards.length
    rw [List.length_dropLast]
    omega

/-- Witness for C2 on the concrete two-card deck `sampleDeck`. -/
theorem draw_card_pops_top_witness :
    sampleDeck.cards ≠ [] ∧ sampleDeck.cards.Nodup ∧
    ((sampleDeck.draw_card).1 = some (sampleDeck.cards.getLast (by decide)) ∧
     (sampleDeck.draw_card).2.cards ++ [sampleDeck.cards.getLast (by decide)] =
       sampleDeck.cards ∧
     sampleDeck.cards.getLast (by decide) ∉ (sampleDeck.draw_card).2.cards ∧
     (sampleDeck.draw_card).2.cards_remaining + 1 = sampleDeck.cards_remaining) :=
  ⟨by decide, by decide, draw_card_pops_top sampleDeck (by decide) (by decide)⟩

/-- C3: drawing from an empty deck yields the absent result (`None`), never an
exception: in this embedding every operation (`new`, `reset`,
`cards_remaining`, `draw_card`) is a total function, and the empty draw is the
unique case where `draw_card` produces no card. -/
theorem empty_draw_returns_none (d : Deck) (h : d.cards_remaining = 0) :
    (d.draw_card).1 = none ∧
    ∀ c : Card, (d.draw_card).1 = some c → False := by
  have hnil : d.cards = [] := List.length_eq_zero.mp h
  rw [Deck.draw_card_of_nil d hnil]
  exact ⟨rfl, by intro c hc; cases hc⟩

/-- Witness for C3 on the concrete empty deck. -/
theorem empty_draw_returns_none_witness :
    (Deck.mk []).cards_remaining = 0 ∧
    (((Deck.mk []).draw_card).1 = none ∧
     ∀ c : Card, ((Deck.mk []).draw_card).1 = some c → False) :=
  ⟨rfl, empty_draw_returns_none ⟨[]⟩ rfl⟩

/-- C4: from any freshly initialized or reset deck, after exactly `n` draws
(0 ≤ n ≤ 52) the remaining count is `52 - n`; and the remaining count is
exactly the number of cards the deck owns. -/
theorem drawN_remaining_count (d : Deck) (n : Nat) (hd : d.Fresh)
    (_hn : n ≤ 52) :
    (d.drawN n).cards_remaining = 52 - n ∧
    (d.drawN n).cards_remaining = (d.drawN n).cards.length := by
  refine ⟨?_, rfl⟩
  show (d.drawN n).cards.length = 52 - n
  rw [Deck.drawN_length, hd.length_eq]

/-- Witness for C4: three draws from the unshuffled full deck leave 49. -/
theorem drawN_remaining_count_witness :
    (Deck.mk builtCards).Fresh ∧ 3 ≤ 52 ∧
    (((Deck.mk builtCards).drawN 3).cards_remaining = 52 - 3 ∧
     ((Deck.mk builtCards).drawN 3).cards_remaining =
       ((Deck.mk builtCards).drawN 3).cards.length) :=
  ⟨List.Perm.refl builtCards, by decide,
   drawN_remaining_count ⟨builtCards⟩ 3 (List.Perm.refl builtCards) (by decide)⟩

/-- C5: drawing 52 times from a fresh deck yields 52 pairwise-distinct cards
covering every (Suit, Rank) combination, and the 53rd draw returns the absent
result. -/
theorem draw_52_covers_all (d : Deck) (hd : d.Fresh) :
    ((d.drawList 52).1).length = 52 ∧
    ((d.drawList 52).1).Nodup ∧
    (∀ c : Card, c ∈ (d.drawList 52).1) ∧
    (((d.drawList 52).2).draw_card).1 = none := by
  have hlen : d.cards.length = 52 := hd.length_eq
  have happ := Deck.drawList_append d 52
  have hclen : ((d.drawList 52).1).length = 52 := by
    rw [Deck.drawList_length, hlen]
    omega
  have hrem : (d.drawList 52).2.cards = [] := by
    have hl := congrArg List.length happ
    rw [List.length_append, List.length_reverse, hclen, hlen] at hl
    exact List.length_eq_zero.mp (by omega)
  have hrev : ((d.drawList 52).1).reverse = d.cards := by
    rw [hrem] at happ
    simpa using happ
  have hperm : ((d.drawList 52).1).Perm builtCards := by
    refine List.Perm.trans ?_ hd
    rw [← hrev]
    exact (List.reverse_perm _).symm
  refine ⟨hclen, ?_, ?_, ?_⟩
  · exact (List.Perm.nodup_iff hperm).mpr builtCards_nodup
  · intro c
    exact (List.Perm.mem_iff hperm).mpr (mem_builtCards c)
  · rw [Deck.draw_card_of_nil _ hrem]

/-- Witness for C5 on the unshuffled full deck. -/
theorem draw_52_covers_all_witness :
    (Deck.mk builtCards).Fresh ∧
    ((((Deck.mk builtCards).drawList 52).1).length = 52 ∧
     (((Deck.mk builtCards).drawList 52).1).Nodup ∧
     (∀ c : Card, c ∈ ((Deck.mk builtCards).drawList 52).1) ∧
     ((((Deck.mk builtCards).drawList 52).2).draw_card).1 = none) :=
  ⟨List.Perm.refl builtCards,
   draw_52_covers_all ⟨builtCards⟩ (List.Perm.refl builtCards)⟩

/-- C6: the display string of a card is its rank label immediately followed by
its suit glyph; in particular the ace of spades renders as "A♠" and the ten of
hearts as "10♥". -/
theorem card_display_string :
    (∀ c : Card, c.reprStr = c.rank.value ++ c.suit.value) ∧
    (Card.mk Suit.SPADES Rank.ACE).reprStr = "A♠" ∧
    (Card.mk Suit.HEARTS Rank.TEN).reprStr = "10♥" :=
  ⟨fun _ => rfl, rfl, rfl⟩

/-- C7: over every reachable deck state, the count is at most 52, a draw never
increases it, and a reset restores it to exactly 52. -/
theorem deck_size_monotone (d : Deck) (sh : List Card → List Card)
    (hd : d.Reachable) (hsh : IsShuffle sh) :
    d.cards_remaining ≤ 52 ∧
    (d.draw_card).2.cards_remaining ≤ d.cards_remaining ∧
    (d.reset sh).cards_remaining = 52 := by
  refine ⟨?_, ?_, (Deck.fresh_reset sh d hsh).length_eq⟩
  · induction hd with
    | new sh2 hsh2 => exact le_of_eq (Deck.fresh_new sh2 hsh2).length_eq
    | draw d2 hd2 ih =>
      have hlen := Deck.draw_card_length d2
      have ih2 : d2.cards.length ≤ 52 := ih
      show (d2.draw_card).2.cards.length ≤ 52
      omega
    | reset d2 sh2 hd2 hsh2 ih =>
      exact le_of_eq (Deck.fresh_reset sh2 d2 hsh2).length_eq
  · have hlen := Deck.draw_card_length d
    show (d.draw_card).2.cards.length ≤ d.cards.length
    omega

/-- Witness for C7 at a freshly constructed deck with the identity shuffle. -/
theorem deck_size_monotone_witness :
    (Deck.new id).Reachable ∧ IsShuffle id ∧
    ((Deck.new id).cards_remaining ≤ 52 ∧
     ((Deck.new id).draw_card).2.cards_remaining ≤ (Deck.new id).cards_remaining ∧
     ((Deck.new id).reset id).cards_remaining = 52) :=
  ⟨Deck.Reachable.new id (fun l => List.Perm.refl l),
   fun l => List.Perm.refl l,
   deck_size_monotone (Deck.new id) id
     (Deck.Reachable.new id (fun l => List.Perm.refl l))
     (fun l => List.Perm.refl l)⟩

/-- C8: `Card` is a value type — two cards with equal suit and equal rank are
equal, hence interchangeable everywhere (in particular their display strings
agree); a card carries no identity beyond its two fields. -/
theorem card_is_value_type (c₁ c₂ : Card) (hs : c₁.suit = c₂.suit)
    (hr : c₁.rank = c₂.rank) :
    c₁ = c₂ ∧ c₁.reprStr = c₂.reprStr := by
  cases c₁
  cases c₂
  cases hs
  cases hr
  exact ⟨rfl, rfl⟩

/-- Witness for C8 on two cards built from the same suit and rank. -/
theorem card_is_value_type_witness :
    (Card.mk Suit.CLUBS Rank.SEVEN).suit = (Card.mk Suit.CLUBS Rank.SEVEN).suit ∧
    (Card.mk Suit.CLUBS Rank.SEVEN).rank = (Card.mk Suit.CLUBS Rank.SEVEN).rank ∧
    (Card.mk Suit.CLUBS Rank.SEVEN = Card.mk Suit.CLUBS Rank.SEVEN ∧
     (Card.mk Suit.CLUBS Rank.SEVEN).reprStr =
       (Card.mk Suit.CLUBS Rank.SEVEN).reprStr) :=
  ⟨rfl, rfl, card_is_value_type (Card.mk Suit.CLUBS Rank.SEVEN)
    (Card.mk Suit.CLUBS Rank.SEVEN) rfl rfl⟩

/-- C9: on an empty deck, `draw_card` returns the absent result and leaves the
state completely unchanged, so any later draw or reset behaves exactly as if
the failed draw had not happened. -/
theorem empty_draw_leaves_state_unchanged (d : Deck) (h : d.cards_remaining = 0) :
    d.draw_card = (none, d) ∧
    (d.draw_card).2.cards_remaining = 0 ∧
    ((d.draw_card).2).draw_card = d.draw_card ∧
    ∀ sh : List Card → List Card, ((d.draw_card).2).reset sh = d.reset sh := by
  have hnil : d.cards = [] := List.length_eq_zero.mp h
  have hdraw := Deck.draw_card_of_nil d hnil
  rw [hdraw]
  exact ⟨rfl, h, by rw [hdraw], fun sh => rfl⟩

/-- Witness for C9 on the concrete empty deck, with the identity shuffle for
the subsequent reset. -/
theorem empty_draw_leaves_state_unchanged_witness :
    (Deck.mk []).cards_remaining = 0 ∧
    ((Deck.mk []).draw_card = (none, ⟨[]⟩) ∧
     ((Deck.mk []).draw_card).2.cards_remaining = 0 ∧
     (((Deck.mk []).draw_card).2).draw_card = (Deck.mk []).draw_card ∧
     (((Deck.mk []).draw_card).2).reset id = (Deck.mk []).reset id) := by
  have h := empty_draw_leaves_state_unchanged ⟨[]⟩ rfl
  exact ⟨rfl, h.1, h.2.1, h.2.2.1, h.2.2.2 id⟩

/-- C10: `reset` rebuilds the deck by exactly the same initialization routine
as construction: with the same shuffle outcome, resetting any deck yields the
very state a brand-new deck would have, and either way the result is a fresh
full deck. -/
theorem reset_equals_new_deck (sh : List Card → List Card) (d : Deck)
    (hsh : IsShuffle sh) :
    d.reset sh = Deck.new sh ∧ (d.reset sh).Fresh ∧ (Deck.new sh).Fresh :=
  ⟨rfl, Deck.fresh_reset sh d hsh, Deck.fresh_new sh hsh⟩

/-- Witness for C10: resetting the concrete two-card deck with the identity
shuffle gives exactly the newly constructed deck. -/
theorem reset_equals_new_deck_witness :
    IsShuffle id ∧
    (sampleDeck.reset id = Deck.new id ∧ (sampleDeck.reset id).Fresh ∧
     (Deck.new id).Fresh) :=
  ⟨fun l => List.Perm.refl l,
   reset_equals_new_deck id sampleDeck (fun l => List.Perm.refl l)⟩
